/-
Verification of the CLUE clustering core (`CLUEstering/include/Clustering.h`)
and the append buffer (`CLUEstering/alpaka/DataFormats/alpaka/Vec.h`).

Shallow embedding conventions:
* C++ `float` values are modelled as exact rationals (`F := ℚ`);
  `std::numeric_limits<float>::max()` is the concrete rational `fltMax`.
* The external collaborators that are not part of the core sources
  (`tiles<Ndim>` from `Tiles.h`, the `kernel` objects from `Kernels.h`,
  the coordinate difference `deltaPhi` from `deltaPhi.h`, the point
  container from `Point.h`, and the real functions `std::sqrt` /
  `std::pow`) enter as parameters, modelled from the spec which lists
  them as interfaces consumed by the core.
* Loops become folds; the per-point output writes of the parallel phases
  target disjoint slots, so a loop `for i in [0,n)` storing into slot `i`
  is the helper `writeEach`.
-/
import Mathlib

set_option maxRecDepth 10000

namespace PyClue

/-- Model of C++ `float` values as exact rationals. -/
abbrev F := ℚ

/-- Value of `std::numeric_limits<float>::max()`, i.e. `(2^24 - 1) * 2^104`:
the sentinel stored in `delta` for "no nearest higher" and the default
`domain_t` bounds. -/
def fltMax : F := (2 ^ 24 - 1) * 2 ^ 104

/-- The `domain_t` struct: minimum and maximum values of a coordinate.
Defaults are `-std::numeric_limits<float>::max()` and
`std::numeric_limits<float>::max()`. -/
structure domain_t where
  min : F := -fltMax
  max : F := fltMax
deriving DecidableEq

instance : Inhabited domain_t := ⟨{}⟩

/-- The `domain_t::empty` check: both bounds still at their defaults. -/
def domain_t.isEmpty (d : domain_t) : Bool :=
  d.min == -fltMax && d.max == fltMax

/-- The per-point state `Points<Ndim>` held in `ClusteringAlgo::points_`:
inputs `coordinates_[dim][i]` and `weight[i]`, outputs `rho`, `delta`,
`nearestHigher`, `followers`, `clusterIndex`, `isSeed`, and the point
count `n`. -/
structure Points where
  n : ℕ
  coordinates : List (List F)
  weight : List F
  rho : List F
  delta : List F
  nearestHigher : List ℤ
  followers : List (List ℕ)
  clusterIndex : List ℤ
  isSeed : List Bool
deriving DecidableEq

/-- Modelled from the spec: the SpatialGrid collaborator (`tiles<Ndim>`,
whose implementation `Tiles.h` is not among the core sources).  Only the
call interface consumed by the core is modelled: per-dimension bin-range
lookup `getBinsFromRange(lo, hi, dim)`, the search-box flattening
`searchBox(perDimBinLists)`, and the per-bin point-index lists
`tiles[binId]` as they stand once `prepareDataStructures` has filled the
grid. -/
structure TilesModel where
  getBinsFromRange : F → F → ℕ → List ℤ
  searchBox : List (List ℤ) → List ℤ
  binContent : ℤ → List ℕ

/-- Modelled from the spec: the external `kernel` collaborator
(`Kernels.h` is not among the core sources), of contract
`(distance, i, j) → float`. -/
abbrev Kernel := F → ℕ → ℕ → F

/-- Modelled from the spec: the external coordinate-difference collaborator
`deltaPhi(xi, xj, domainMin, domainMax)`, wraparound-aware when the domain
is bounded (`deltaPhi.h` is not among the core sources). -/
abbrev CoordDiff := F → F → F → F → F

/-- Configuration stored by the `ClusteringAlgo` constructor, together with
the compile-time dimension count `Ndim`. -/
structure AlgoConfig where
  dc : F
  rhoc : F
  outlierDeltaFactor : F
  pointsPerTile : ℕ
  domains : List domain_t
  Ndim : ℕ

/-- A loop `for i in [0, n)` that stores `f i` into slot `i` of `l`
(each slot is written exactly once, and `f` reads only unmodified data,
mirroring the disjoint per-point writes of the parallel phases). -/
def writeEach {α : Type} (l : List α) (n : ℕ) (f : ℕ → α) : List α :=
  (List.range n).foldl (fun acc k => acc.set k (f k)) l

/-- C++ `std::vector::resize(n, v)`: appends copies of `v` when growing,
truncates when shrinking, and does nothing when the length is already `n`. -/
def vresize {α : Type} (l : List α) (n : ℕ) (v : α) : List α :=
  if n ≤ l.length then l.take n else l ++ List.replicate (n - l.length) v

/-- Value of `*std::max_element(l.begin(), l.end())`.  Dereferencing the
end iterator of an empty range is undefined behaviour in C++; the model
returns `d` there. -/
def maxElemD (l : List F) (d : F) : F :=
  match l with
  | [] => d
  | x :: xs => xs.foldl max x

/-- Value of `*std::min_element(l.begin(), l.end())`; empty case as in
`maxElemD`. -/
def minElemD (l : List F) (d : F) : F :=
  match l with
  | [] => d
  | x :: xs => xs.foldl min x

/-- The append buffer `clue::Vec<T>`: backing store `m_data` (one slot per
unit of capacity), logical length `m_size`, and `m_capacity`. -/
structure Vec (T : Type) where
  m_data : List T
  m_size : ℕ
  m_capacity : ℕ
deriving DecidableEq

/-- The non-atomic append (`push_back_unsafe` in the source): `m_size++`;
if the reserved slot is within capacity, write the element there and
return the slot index, otherwise roll the increment back and return `-1`
without writing. -/
def Vec.push_back_seq {T : Type} (v : Vec T) (element : T) : Vec T × ℤ :=
  let previousSize := v.m_size
  if previousSize < v.m_capacity then
    ({ v with m_data := v.m_data.set previousSize element,
              m_size := previousSize + 1 }, (previousSize : ℤ))
  else
    (v, -1)

/-- The thread-safe append (`push_back` in the source): `atomicAdd`
reserves `previousSize`; within capacity the element is written there and
the slot index returned, otherwise `atomicSub` rolls the size back and
`-1` is returned without writing.  One linearized call is modelled; the
atomicity of the reservation itself is a scheduling property outside the
embedding. -/
def Vec.push_back {T : Type} (v : Vec T) (element : T) : Vec T × ℤ :=
  let previousSize := v.m_size
  if previousSize < v.m_capacity then
    ({ v with m_data := v.m_data.set previousSize element,
              m_size := previousSize + 1 }, (previousSize : ℤ))
  else
    (v, -1)

/-- `Vec::reset`: size to zero, storage untouched. -/
def Vec.reset {T : Type} (v : Vec T) : Vec T :=
  { v with m_size := 0 }

/-- `Vec::reserve(size)`: sets `m_capacity = size` and points `m_data` at a
fresh `new T[size]` allocation, discarding the previous contents; `m_size`
is not touched.  The fresh (uninitialized) slots are modelled as default
values. -/
def Vec.reserve {T : Type} [Inhabited T] (v : Vec T) (size : ℕ) : Vec T :=
  { v with m_capacity := size, m_data := List.replicate size default }

/-- `ClusteringAlgo::distance(i, j)`: square root of the sum over the
dimensions of the squared `deltaPhi` differences.  `std::sqrt` is external
real arithmetic, entering as the parameter `sqrtQ`. -/
def distance (dPhi : CoordDiff) (sqrtQ : F → F) (cfg : AlgoConfig)
    (coords : List (List F)) (i j : ℕ) : F :=
  let qSum := (List.range cfg.Ndim).foldl (fun acc k =>
    let xk := (coords.getD k []).getD i 0
    let yk := (coords.getD k []).getD j 0
    let dom := cfg.domains.getD k {}
    let delta_xk := dPhi xk yk dom.min dom.max
    acc + delta_xk ^ 2) 0
  sqrtQ qSum

/-- One dimension's candidate bin list for a query window `[x - r, x + r]`,
with the overflow / underflow domain-wrap branches exactly as written (an
`if` / `else if`).  The source repeats this block verbatim in
`calculateLocalDensity` (with `r = dc_`) and `calculateDistanceToHigher`
(with `r = dm`); it is factored here once. -/
def wrapBins (tiles : TilesModel) (r x : F) (dom : domain_t) (dim : ℕ) :
    List ℤ :=
  let base := tiles.getBinsFromRange (x - r) (x + r) dim
  if x + r > dom.max then
    base ++ tiles.getBinsFromRange dom.min (dom.min + r) dim
  else if x - r < dom.min then
    base ++ tiles.getBinsFromRange (dom.max - r) dom.max dim
  else base

/-- The per-dimension candidate bin lists `xjBins` built at the top of
`calculateLocalDensity` (search radius `dc_`). -/
def xjBinsDensity (tiles : TilesModel) (cfg : AlgoConfig)
    (coords : List (List F)) (i : ℕ) : List (List ℤ) :=
  (List.range cfg.Ndim).map (fun j =>
    wrapBins tiles cfg.dc ((coords.getD j []).getD i 0) (cfg.domains.getD j {}) j)

/-- The per-dimension candidate bin lists `xjBins` built at the top of
`calculateDistanceToHigher` (search radius `dm = outlierDeltaFactor_ * dc_`). -/
def xjBinsHigher (tiles : TilesModel) (cfg : AlgoConfig)
    (coords : List (List F)) (i : ℕ) : List (List ℤ) :=
  (List.range cfg.Ndim).map (fun j =>
    wrapBins tiles (cfg.outlierDeltaFactor * cfg.dc)
      ((coords.getD j []).getD i 0) (cfg.domains.getD j {}) j)

/-- The candidate points scanned for point `i` in `calculateLocalDensity`:
every point of every bin of the flattened search box. -/
def searchCandidatesDensity (tiles : TilesModel) (cfg : AlgoConfig)
    (coords : List (List F)) (i : ℕ) : List ℕ :=
  (tiles.searchBox (xjBinsDensity tiles cfg coords i)).foldr
    (fun binId acc => tiles.binContent binId ++ acc) []

/-- The candidate points scanned for point `i` in
`calculateDistanceToHigher`: every point of every bin of the flattened
search box. -/
def searchCandidatesHigher (tiles : TilesModel) (cfg : AlgoConfig)
    (coords : List (List F)) (i : ℕ) : List ℕ :=
  (tiles.searchBox (xjBinsHigher tiles cfg coords i)).foldr
    (fun binId acc => tiles.binContent binId ++ acc) []

/-- `ClusteringAlgo::calculateLocalDensity`: for each point `i`, the
kernel-weighted contributions of all in-box candidates within distance
`dc_` are added onto the stored `rho[i]` (the source uses `+=` and never
resets `rho`, so the fold starts from the current `rho[i]`). -/
def calculateLocalDensity (tiles : TilesModel) (ker : Kernel)
    (dPhi : CoordDiff) (sqrtQ : F → F) (cfg : AlgoConfig) (p : Points) :
    Points :=
  { p with rho := writeEach p.rho p.n (fun i =>
      (searchCandidatesDensity tiles cfg p.coordinates i).foldl (fun acc j =>
        let dist_ij := distance dPhi sqrtQ cfg p.coordinates i j
        if dist_ij ≤ cfg.dc then
          acc + ker dist_ij i j * p.weight.getD j 0
        else acc) (p.rho.getD i 0)) }

/-- The `foundHigher` predicate of `calculateDistanceToHigher`:
`rho[j] > rho[i]`, or equal densities with the tie broken by `j > i`. -/
def foundHigherP (rho : List F) (i j : ℕ) : Prop :=
  rho.getD j 0 > rho.getD i 0 ∨ (rho.getD j 0 = rho.getD i 0 ∧ j > i)

instance (rho : List F) (i j : ℕ) : Decidable (foundHigherP rho i j) :=
  inferInstanceAs (Decidable (_ ∨ _))

/-- One candidate step of the scan in `calculateDistanceToHigher`: when
`foundHigher` holds and `dist_ij ≤ dm`, a strictly closer candidate
updates `(delta_i, nearestHigher_i)`. -/
def scanStep (rho : List F) (dist : ℕ → ℕ → F) (dm : F) (i : ℕ)
    (acc : F × ℤ) (j : ℕ) : F × ℤ :=
  let dist_ij := dist i j
  if foundHigherP rho i j ∧ dist_ij ≤ dm then
    if dist_ij < acc.1 then (dist_ij, (j : ℤ)) else acc
  else acc

/-- The scan over one point's search-box candidates in
`calculateDistanceToHigher`, starting from the defaults
`(std::numeric_limits<float>::max(), -1)`. -/
def scanHigher (rho : List F) (dist : ℕ → ℕ → F) (dm : F) (i : ℕ)
    (cands : List ℕ) : F × ℤ :=
  cands.foldl (scanStep rho dist dm i) (fltMax, -1)

/-- `ClusteringAlgo::calculateDistanceToHigher`: for every point `i`,
scan the search box built with radius `dm = outlierDeltaFactor_ * dc_`
and store the resulting `(delta_i, nearestHigher_i)`. -/
def calculateDistanceToHigher (tiles : TilesModel) (dPhi : CoordDiff)
    (sqrtQ : F → F) (cfg : AlgoConfig) (p : Points) : Points :=
  let dm := cfg.outlierDeltaFactor * cfg.dc
  let dist := distance dPhi sqrtQ cfg p.coordinates
  { p with
    delta := writeEach p.delta p.n (fun i =>
      (scanHigher p.rho dist dm i
        (searchCandidatesHigher tiles cfg p.coordinates i)).1),
    nearestHigher := writeEach p.nearestHigher p.n (fun i =>
      (scanHigher p.rho dist dm i
        (searchCandidatesHigher tiles cfg p.coordinates i)).2) }

/-- Seed condition of `findAndAssignClusters`:
`delta[i] > dc_ && rho[i] >= rhoc_`. -/
def seedCond (cfg : AlgoConfig) (delta rho : List F) (i : ℕ) : Prop :=
  delta.getD i 0 > cfg.dc ∧ rho.getD i 0 ≥ cfg.rhoc

instance (cfg : AlgoConfig) (delta rho : List F) (i : ℕ) :
    Decidable (seedCond cfg delta rho i) :=
  inferInstanceAs (Decidable (_ ∧ _))

/-- Outlier condition of `findAndAssignClusters`:
`delta[i] > outlierDeltaFactor_ * dc_ && rho[i] < rhoc_`. -/
def outlierCond (cfg : AlgoConfig) (delta rho : List F) (i : ℕ) : Prop :=
  delta.getD i 0 > cfg.outlierDeltaFactor * cfg.dc ∧ rho.getD i 0 < cfg.rhoc

instance (cfg : AlgoConfig) (delta rho : List F) (i : ℕ) :
    Decidable (outlierCond cfg delta rho i) :=
  inferInstanceAs (Decidable (_ ∧ _))

/-- Number of seeds with index below `i`; the id a seed receives. -/
def seedCountBelow (cfg : AlgoConfig) (delta rho : List F) (i : ℕ) : ℕ :=
  ((List.range i).filter (fun k => decide (seedCond cfg delta rho k))).length

/-- The mutable state of `findAndAssignClusters`: cluster counter, work
stack (the C++ `std::vector` used back-to-front; the list head is the
vector's back), and the three per-point output arrays it writes. -/
structure AssignState where
  nClusters : ℕ
  localStack : List ℕ
  clusterIndex : List ℤ
  isSeed : List Bool
  followers : List (List ℕ)
deriving DecidableEq

/-- One iteration of the classification loop of `findAndAssignClusters`:
`clusterIndex[i] = -1`; seeds get `isSeed[i] = 1`, the next cluster id and
a stack push; non-outliers are pushed onto `followers[nearestHigher[i]]`
(indexing `followers` with `-1` would be undefined behaviour in C++;
`Int.toNat` maps the never-exercised `-1` to slot `0`). -/
def classifyStep (cfg : AlgoConfig) (delta rho : List F) (nh : List ℤ)
    (s : AssignState) (i : ℕ) : AssignState :=
  let ci := s.clusterIndex.set i (-1)
  if seedCond cfg delta rho i then
    { s with isSeed := s.isSeed.set i true,
             clusterIndex := ci.set i (s.nClusters : ℤ),
             nClusters := s.nClusters + 1,
             localStack := i :: s.localStack }
  else if ¬ outlierCond cfg delta rho i then
    let t := (nh.getD i (-1)).toNat
    { s with clusterIndex := ci,
             followers := s.followers.set t (s.followers.getD t [] ++ [i]) }
  else
    { s with clusterIndex := ci }

/-- The full classification loop of `findAndAssignClusters` over points
`0, …, n-1`. -/
def classifyPoints (cfg : AlgoConfig) (delta rho : List F) (nh : List ℤ)
    (n : ℕ) (s0 : AssignState) : AssignState :=
  (List.range n).foldl (classifyStep cfg delta rho nh) s0

/-- One iteration of the expansion loop of `findAndAssignClusters`: pop
`i`, and for every follower `j` of `i` copy `clusterIndex[i]` to
`clusterIndex[j]` and push `j`. -/
def expandStep (s : AssignState) : AssignState :=
  match s.localStack with
  | [] => s
  | i :: rest =>
    let followers := s.followers.getD i []
    followers.foldl (fun t j =>
      { t with clusterIndex := t.clusterIndex.set j (t.clusterIndex.getD i (-1)),
               localStack := j :: t.localStack })
      { s with localStack := rest }

/-- The `while (!localStack.empty())` expansion loop of
`findAndAssignClusters`, with the iteration count made explicit as fuel
(the termination theorem shows a finite fuel always empties the stack
when the follower lists invert a nearest-higher relation). -/
def expandClusters : ℕ → AssignState → AssignState
  | 0, s => s
  | fuel + 1, s =>
    match s.localStack with
    | [] => s
    | _ :: _ => expandClusters fuel (expandStep s)

/-- `ClusteringAlgo::findAndAssignClusters`: classification pass followed
by the stack expansion.  The fuel `(n+1)^(n+1)` dominates the measure
used in the termination proof, so it never cuts a terminating run short. -/
def findAndAssignClusters (cfg : AlgoConfig) (p : Points) : Points :=
  let s0 : AssignState :=
    { nClusters := 0, localStack := [], clusterIndex := p.clusterIndex,
      isSeed := p.isSeed, followers := p.followers }
  let s1 := classifyPoints cfg p.delta p.rho p.nearestHigher p.n s0
  let s2 := expandClusters ((p.n + 1) ^ (p.n + 1)) s1
  { p with clusterIndex := s2.clusterIndex, isSeed := s2.isSeed,
           followers := s2.followers }

/-- `ClusteringAlgo::calculateNTiles`: `ntiles = n / pointPerBin`; when
that is zero the function throws `100`, immediately catches it, prints a
diagnostic and still returns the zero count.  The Boolean records whether
the diagnostic was printed. -/
def calculateNTiles (n pointPerBin : ℕ) : ℕ × Bool :=
  let ntiles := n / pointPerBin
  (ntiles, ntiles == 0)

/-- `ClusteringAlgo::calculateTileSize`: per dimension, the observed
coordinate extent divided by `NperDim = (int)std::pow(NTiles, 1.0/Ndim)`.
The real-valued `std::pow` is external arithmetic, entering as the
integer-root parameter `iroot`; with no points the `max_element` /
`min_element` dereferences are undefined behaviour (modelled as `0`), and
`NperDim = 0` makes the division degenerate (`ℚ` gives `0` where C++
floats give `inf` / `nan`); neither value is consumed downstream by the
phases. -/
def calculateTileSize (iroot : ℕ → ℕ → ℕ) (cfg : AlgoConfig)
    (coords : List (List F)) (NTiles : ℕ) : List F :=
  let NperDim := iroot NTiles cfg.Ndim
  (List.range cfg.Ndim).map (fun i =>
    let dimMax := maxElemD (coords.getD i []) 0
    let dimMin := minElemD (coords.getD i []) 0
    (dimMax - dimMin) / (NperDim : F))

/-- `ClusteringAlgo::setPoints(n, coordinates, weight)`: stores the inputs
and `n`; returns `true` immediately when `n == 0`, otherwise
`std::vector::resize(n, default)` is applied to each output array and
`false` is returned.  (The `points_.clear()` call is commented out in the
source.) -/
def setPoints (p : Points) (n : ℕ) (coordinates : List (List F))
    (weight : List F) : Points × Bool :=
  let q : Points := { p with coordinates := coordinates, weight := weight,
                             n := n }
  if n = 0 then (q, true)
  else
    ({ q with rho := vresize q.rho n 0,
              delta := vresize q.delta n fltMax,
              nearestHigher := vresize q.nearestHigher n (-1),
              followers := vresize q.followers n [],
              clusterIndex := vresize q.clusterIndex n (-1),
              isSeed := vresize q.isSeed n false }, false)

/-- Modelled from the spec: `Points::clear` (in `Point.h`, outside the
core sources) releases all point data; `ClusteringAlgo::clearPoints`
delegates to it. -/
def clearPoints (_p : Points) : Points :=
  { n := 0, coordinates := [], weight := [], rho := [], delta := [],
    nearestHigher := [], followers := [], clusterIndex := [], isSeed := [] }

/-- `ClusteringAlgo::makeClusters(ker)`: compute the tile count and tile
sizes (which only configure the grid collaborator, here the already
filled `tiles`), run the three per-point phases and the assignment, and
return `{points_.clusterIndex, points_.isSeed}` together with the final
point state. -/
def makeClusters (iroot : ℕ → ℕ → ℕ) (tiles : TilesModel) (ker : Kernel)
    (dPhi : CoordDiff) (sqrtQ : F → F) (cfg : AlgoConfig) (p : Points) :
    Points × (List ℤ × List Bool) :=
  let nTiles := (calculateNTiles p.n cfg.pointsPerTile).1
  let _tilesSize := calculateTileSize iroot cfg p.coordinates nTiles
  let p1 := calculateLocalDensity tiles ker dPhi sqrtQ cfg p
  let p2 := calculateDistanceToHigher tiles dPhi sqrtQ cfg p1
  let p3 := findAndAssignClusters cfg p2
  (p3, (p3.clusterIndex, p3.isSeed))

/-! Concrete instances used to exercise the model on closed inputs:
a one-bin grid whose single bin holds point `0`, a flat kernel, plain
subtraction as the coordinate difference, the identity in place of
`std::sqrt` (every arising squared sum is `0` or is only compared), and a
trivial integer root. -/

/-- A grid with a single bin `0` that contains the single point `0`. -/
def tilesOne : TilesModel :=
  { getBinsFromRange := fun _ _ _ => [0],
    searchBox := fun _ => [0],
    binContent := fun _ => [0] }

/-- A flat kernel returning `1` for every pair. -/
def kerFlat : Kernel := fun _ _ _ => 1

/-- Plain subtraction as the coordinate-difference collaborator. -/
def dPhiSub : CoordDiff := fun xi xj _ _ => xi - xj

/-- A trivial stand-in for the integer root used by `calculateTileSize`. -/
def iroot1 : ℕ → ℕ → ℕ := fun _ _ => 1

/-- One-dimensional configuration: `dc = 1`, `rhoc = 1/2`,
`outlierDeltaFactor = 2`, `pointsPerTile = 2`, unbounded domain. -/
def cfgOne : AlgoConfig :=
  { dc := 1, rhoc := 1/2, outlierDeltaFactor := 2, pointsPerTile := 2,
    domains := [{}], Ndim := 1 }

/-- A freshly constructed engine: no points stored yet. -/
def emptyEngine : Points :=
  { n := 0, coordinates := [], weight := [], rho := [], delta := [],
    nearestHigher := [], followers := [], clusterIndex := [], isSeed := [] }

/-- The engine after `setPoints(1, [[0]], [2/5])` on a fresh instance. -/
def pOne : Points := (setPoints emptyEngine 1 [[0]] [2/5]).1

/-- The engine after `setPoints(1, [[0]], [1])` on a fresh instance. -/
def pOneHeavy : Points := (setPoints emptyEngine 1 [[0]] [1]).1


/-- A grid whose bin-range lookup distinguishes the three query windows
arising in the wrap test: it answers `[3]` for a lower bound below `-1`,
`[2]` for one in `[-1, 0)`, and `[1]` otherwise. -/
def tilesCex : TilesModel :=
  { getBinsFromRange := fun lo _ _ => if lo < -1 then [3] else if lo < 0 then [2] else [1],
    searchBox := fun _ => [],
    binContent := fun _ => [] }

/-- Configuration for the wrap test: radius `dc = 2` on the bounded domain
`[0, 1]`, so a point at `1/2` overflows the max and underflows the min in
the same dimension. -/
def cfgCex : AlgoConfig :=
  { dc := 2, rhoc := 0, outlierDeltaFactor := 1, pointsPerTile := 1,
    domains := [{ min := 0, max := 1 }], Ndim := 1 }


/-- A two-point state entering `findAndAssignClusters`: point `1` is a
local maximum at sentinel `delta`, point `0` is at distance `1/2` from its
nearest higher `1`; equal densities `1`. -/
def p2w : Points :=
  { n := 2, coordinates := [[0, 0]], weight := [1, 1], rho := [1, 1],
    delta := [1/2, fltMax], nearestHigher := [1, -1], followers := [[], []],
    clusterIndex := [-1, -1], isSeed := [false, false] }


/-- The strict (density, index) lexicographic order underlying the
nearest-higher tie-break: `a` is below `b` when `rho[a] < rho[b]`, or the
densities are equal and `a < b`.  `foundHigher` states exactly that the
scanning point is below the candidate in this order. -/
def lexLt (rho : List F) (a b : ℕ) : Prop :=
  rho.getD a 0 < rho.getD b 0 ∨ (rho.getD a 0 = rho.getD b 0 ∧ a < b)

instance (rho : List F) (a b : ℕ) : Decidable (lexLt rho a b) :=
  inferInstanceAs (Decidable (_ ∨ _))

/-- Rank of a point in the lexicographic order: how many of the `n` points
lie strictly below it. -/
def rankOf (rho : List F) (n : ℕ) (a : ℕ) : ℕ :=
  ((Finset.range n).filter (fun b => lexLt rho b a)).card

/-- Termination measure of the expansion work stack: popping a point can
push at most `n` strictly lower-ranked points, so weighting a point of
rank `r` by `(n+1)^r` makes every iteration decrease the total. -/
def stackMeasure (rho : List F) (n : ℕ) (st : List ℕ) : ℕ :=
  (st.map (fun p => (n + 1) ^ rankOf rho n p)).sum

/-- The candidates of point `i`'s nearest-higher search box that qualify:
`foundHigher` holds and the domain-aware distance is at most
`dm = outlierDeltaFactor * dc`. -/
def qualifiedCands (tiles : TilesModel) (dPhi : CoordDiff) (sqrtQ : F → F)
    (cfg : AlgoConfig) (p : Points) (i : ℕ) : List ℕ :=
  (searchCandidatesHigher tiles cfg p.coordinates i).filter
    (fun j => decide (foundHigherP p.rho i j ∧
      distance dPhi sqrtQ cfg p.coordinates i j ≤ cfg.outlierDeltaFactor * cfg.dc))

/-! Generic helper lemmas about indexed writes. -/

theorem getD_set_self {α : Type} (l : List α) (i : ℕ) (a d : α) (h : i < l.length) :
    (l.set i a).getD i d = a := by
  simp [List.getD, List.getElem?_set, h]

theorem getD_set_ne {α : Type} (l : List α) (i m : ℕ) (a d : α) (h : i ≠ m) :
    (l.set i a).getD m d = l.getD m d := by
  simp [List.getD, List.getElem?_set, h]

theorem writeEach_zero {α : Type} (l : List α) (f : ℕ → α) :
    writeEach l 0 f = l := rfl

theorem writeEach_succ {α : Type} (l : List α) (n : ℕ) (f : ℕ → α) :
    writeEach l (n + 1) f = (writeEach l n f).set n (f n) := by
  simp [writeEach, List.range_succ]

theorem length_writeEach {α : Type} (l : List α) (n : ℕ) (f : ℕ → α) :
    (writeEach l n f).length = l.length := by
  induction n with
  | zero => rfl
  | succ k ih => simp [writeEach_succ, ih]

theorem getD_writeEach {α : Type} (l : List α) (n : ℕ) (f : ℕ → α) (i : ℕ) (d : α)
    (h1 : i < n) (h2 : i < l.length) :
    (writeEach l n f).getD i d = f i := by
  induction n with
  | zero => omega
  | succ k ih =>
    rw [writeEach_succ]
    rcases Nat.lt_or_ge i k with hik | hik
    · rw [getD_set_ne _ _ _ _ _ (by omega)]
      exact ih (by omega)
    · have : i = k := by omega
      subst this
      exact getD_set_self _ _ _ _ (by rw [length_writeEach]; exact h2)

/-- Invariant of the nearest-higher candidate scan: the running minimum
never increases, bounds every qualifying candidate seen so far, and is
either the untouched initial pair or a strictly improving qualifying
minimizer with its index. -/
theorem scanFold_inv (rho : List F) (dist : ℕ → ℕ → F) (dm : F) (i : ℕ)
    (cands : List ℕ) :
    ∀ (d0 : F) (nh0 : ℤ),
    (cands.foldl (scanStep rho dist dm i) (d0, nh0)).1 ≤ d0 ∧
    (∀ j ∈ cands, foundHigherP rho i j → dist i j ≤ dm →
      (cands.foldl (scanStep rho dist dm i) (d0, nh0)).1 ≤ dist i j) ∧
    (cands.foldl (scanStep rho dist dm i) (d0, nh0) = (d0, nh0) ∨
      ∃ j ∈ cands, foundHigherP rho i j ∧ dist i j ≤ dm ∧
        (cands.foldl (scanStep rho dist dm i) (d0, nh0)).1 = dist i j ∧
        (cands.foldl (scanStep rho dist dm i) (d0, nh0)).2 = (j : ℤ) ∧
        (cands.foldl (scanStep rho dist dm i) (d0, nh0)).1 < d0) := by
  induction cands with
  | nil =>
    intro d0 nh0
    exact ⟨le_refl _, by simp, Or.inl rfl⟩
  | cons c cs ih =>
    intro d0 nh0
    by_cases hq : foundHigherP rho i c ∧ dist i c ≤ dm
    · by_cases hlt : dist i c < d0
      · have hstep : scanStep rho dist dm i (d0, nh0) c = (dist i c, (c : ℤ)) := by
          simp [scanStep, hq, hlt]
        obtain ⟨ih1, ih2, ih3⟩ := ih (dist i c) (c : ℤ)
        rw [List.foldl_cons, hstep]
        refine ⟨ih1.trans hlt.le, ?_, ?_⟩
        · intro j hj hfh hdmj
          rcases List.mem_cons.mp hj with rfl | hj
          · exact ih1
          · exact ih2 j hj hfh hdmj
        · rcases ih3 with heq | ⟨j, hjmem, hfh, hdmj, h1, h2, h3⟩
          · refine Or.inr ⟨c, List.mem_cons_self _ _, hq.1, hq.2, ?_, ?_, ?_⟩
            · rw [heq]
            · rw [heq]
            · rw [heq]; exact hlt
          · exact Or.inr ⟨j, List.mem_cons_of_mem _ hjmem, hfh, hdmj, h1, h2,
              h3.trans hlt⟩
      · have hstep : scanStep rho dist dm i (d0, nh0) c = (d0, nh0) := by
          simp [scanStep, hq, hlt]
        obtain ⟨ih1, ih2, ih3⟩ := ih d0 nh0
        rw [List.foldl_cons, hstep]
        refine ⟨ih1, ?_, ?_⟩
        · intro j hj hfh hdmj
          rcases List.mem_cons.mp hj with rfl | hj
          · exact ih1.trans (not_lt.mp hlt)
          · exact ih2 j hj hfh hdmj
        · rcases ih3 with heq | ⟨j, hjmem, hfh, hdmj, h1, h2, h3⟩
          · exact Or.inl heq
          · exact Or.inr ⟨j, List.mem_cons_of_mem _ hjmem, hfh, hdmj, h1, h2, h3⟩
    · have hstep : scanStep rho dist dm i (d0, nh0) c = (d0, nh0) := by
        simp only [scanStep]
        rw [if_neg hq]
      obtain ⟨ih1, ih2, ih3⟩ := ih d0 nh0
      rw [List.foldl_cons, hstep]
      refine ⟨ih1, ?_, ?_⟩
      · intro j hj hfh hdmj
        rcases List.mem_cons.mp hj with rfl | hj
        · exact absurd ⟨hfh, hdmj⟩ hq
        · exact ih2 j hj hfh hdmj
      · rcases ih3 with heq | ⟨j, hjmem, hfh, hdmj, h1, h2, h3⟩
        · exact Or.inl heq
        · exact Or.inr ⟨j, List.mem_cons_of_mem _ hjmem, hfh, hdmj, h1, h2, h3⟩

/-- C1: after `calculateDistanceToHigher`, for every point `i`, `delta[i]`
is the minimum domain-aware distance over the search-box candidates `j`
with `foundHigher` (`rho[j] > rho[i]`, or equal `rho` and `j > i`) and
`distance(i,j) <= dm`, and `nearestHigher[i]` is such a minimizing `j`;
with no qualifying candidate they are the sentinel
`std::numeric_limits<float>::max()` and `-1`.  Consequently a non-`-1`
`nearestHigher[i]` always satisfies `foundHigher`.  (Stated for
`dm` below the sentinel, which a qualifying distance could otherwise
reach.) -/
theorem calculateDistanceToHigher_nearest (tiles : TilesModel) (dPhi : CoordDiff)
    (sqrtQ : F → F) (cfg : AlgoConfig) (p : Points) (i : ℕ)
    (hi : i < p.n) (hd : p.delta.length = p.n) (hn : p.nearestHigher.length = p.n)
    (hdm : cfg.outlierDeltaFactor * cfg.dc < fltMax) :
    (∀ j ∈ qualifiedCands tiles dPhi sqrtQ cfg p i,
        (calculateDistanceToHigher tiles dPhi sqrtQ cfg p).delta.getD i 0 ≤
          distance dPhi sqrtQ cfg p.coordinates i j) ∧
    (qualifiedCands tiles dPhi sqrtQ cfg p i = [] →
        (calculateDistanceToHigher tiles dPhi sqrtQ cfg p).delta.getD i 0 = fltMax ∧
        (calculateDistanceToHigher tiles dPhi sqrtQ cfg p).nearestHigher.getD i (-1) = -1) ∧
    (qualifiedCands tiles dPhi sqrtQ cfg p i ≠ [] →
        ∃ j ∈ qualifiedCands tiles dPhi sqrtQ cfg p i,
          (calculateDistanceToHigher tiles dPhi sqrtQ cfg p).nearestHigher.getD i (-1)
              = (j : ℤ) ∧
          (calculateDistanceToHigher tiles dPhi sqrtQ cfg p).delta.getD i 0 =
            distance dPhi sqrtQ cfg p.coordinates i j) ∧
    ((calculateDistanceToHigher tiles dPhi sqrtQ cfg p).nearestHigher.getD i (-1) ≠ -1 →
        ∃ j : ℕ,
          (calculateDistanceToHigher tiles dPhi sqrtQ cfg p).nearestHigher.getD i (-1)
              = (j : ℤ) ∧
          foundHigherP p.rho i j) := by
  have hdel : (calculateDistanceToHigher tiles dPhi sqrtQ cfg p).delta.getD i 0 =
      (scanHigher p.rho (distance dPhi sqrtQ cfg p.coordinates)
        (cfg.outlierDeltaFactor * cfg.dc) i
        (searchCandidatesHigher tiles cfg p.coordinates i)).1 := by
    simp only [calculateDistanceToHigher]
    exact getD_writeEach _ _ _ _ _ hi (by rw [hd]; exact hi)
  have hnh : (calculateDistanceToHigher tiles dPhi sqrtQ cfg p).nearestHigher.getD i (-1) =
      (scanHigher p.rho (distance dPhi sqrtQ cfg p.coordinates)
        (cfg.outlierDeltaFactor * cfg.dc) i
        (searchCandidatesHigher tiles cfg p.coordinates i)).2 := by
    simp only [calculateDistanceToHigher]
    exact getD_writeEach _ _ _ _ _ hi (by rw [hn]; exact hi)
  have hmemq : ∀ j, j ∈ qualifiedCands tiles dPhi sqrtQ cfg p i ↔
      j ∈ searchCandidatesHigher tiles cfg p.coordinates i ∧
      foundHigherP p.rho i j ∧
      distance dPhi sqrtQ cfg p.coordinates i j ≤ cfg.outlierDeltaFactor * cfg.dc := by
    intro j
    constructor
    · intro hj
      have h := List.mem_filter.mp hj
      have h2 := of_decide_eq_true h.2
      exact ⟨h.1, h2.1, h2.2⟩
    · rintro ⟨h1, h2, h3⟩
      exact List.mem_filter.mpr ⟨h1, decide_eq_true ⟨h2, h3⟩⟩
  obtain ⟨inv1, inv2, inv3⟩ := scanFold_inv p.rho
    (distance dPhi sqrtQ cfg p.coordinates) (cfg.outlierDeltaFactor * cfg.dc) i
    (searchCandidatesHigher tiles cfg p.coordinates i) fltMax (-1)
  refine ⟨?_, ?_, ?_, ?_⟩
  · intro j hj
    obtain ⟨hjc, hfh, hdmj⟩ := (hmemq j).mp hj
    rw [hdel]
    exact inv2 j hjc hfh hdmj
  · intro hempty
    rcases inv3 with heq | ⟨j, hjc, hfh, hdmj, _⟩
    · constructor
      · rw [hdel]; unfold scanHigher; rw [heq]
      · rw [hnh]; unfold scanHigher; rw [heq]
    · exfalso
      have : j ∈ qualifiedCands tiles dPhi sqrtQ cfg p i := (hmemq j).mpr ⟨hjc, hfh, hdmj⟩
      rw [hempty] at this
      simp at this
  · intro hne
    obtain ⟨j0, hj0⟩ := List.exists_mem_of_ne_nil _ hne
    obtain ⟨hj0c, hfh0, hdm0⟩ := (hmemq j0).mp hj0
    have hlt : ((searchCandidatesHigher tiles cfg p.coordinates i).foldl
        (scanStep p.rho (distance dPhi sqrtQ cfg p.coordinates)
          (cfg.outlierDeltaFactor * cfg.dc) i) (fltMax, -1)).1 < fltMax :=
      lt_of_le_of_lt (inv2 j0 hj0c hfh0 hdm0) (lt_of_le_of_lt hdm0 hdm)
    rcases inv3 with heq | ⟨j, hjc, hfh, hdmj, h1, h2, h3⟩
    · rw [heq] at hlt
      exact absurd hlt (lt_irrefl _)
    · refine ⟨j, (hmemq j).mpr ⟨hjc, hfh, hdmj⟩, ?_, ?_⟩
      · rw [hnh]; exact h2
      · rw [hdel]; exact h1
  · intro hne1
    rcases inv3 with heq | ⟨j, hjc, hfh, hdmj, h1, h2, h3⟩
    · exfalso
      apply hne1
      rw [hnh]; unfold scanHigher; rw [heq]
    · refine ⟨j, ?_, hfh⟩
      rw [hnh]; exact h2

/-- Witness for C1 at a concrete one-point instance: no candidate
qualifies, so the scan leaves the sentinel pair. -/
theorem calculateDistanceToHigher_nearest_witness :
    0 < pOne.n ∧
    ((calculateDistanceToHigher tilesOne dPhiSub id cfgOne pOne).delta.getD 0 0 = fltMax ∧
     (calculateDistanceToHigher tilesOne dPhiSub id cfgOne pOne).nearestHigher.getD 0 (-1) = -1) :=
  ⟨by norm_num [pOne, setPoints, emptyEngine],
   (calculateDistanceToHigher_nearest tilesOne dPhiSub id cfgOne pOne 0
      (by norm_num [pOne, setPoints, emptyEngine])
      (by norm_num [pOne, setPoints, emptyEngine, vresize])
      (by norm_num [pOne, setPoints, emptyEngine, vresize])
      (by norm_num [cfgOne, fltMax])).2.1
    (by norm_num [qualifiedCands, searchCandidatesHigher, xjBinsHigher, wrapBins, tilesOne,
      cfgOne, pOne, setPoints, emptyEngine, vresize, distance, dPhiSub,
      foundHigherP, fltMax, List.filter])⟩

/-- Helper: a property preserved by every step of a fold holds of the
fold's result. -/
theorem foldl_inv {α β : Type} (P : β → Prop) (step : β → α → β) (l : List α)
    (init : β) (h0 : P init) (hstep : ∀ b a, P b → P (step b a)) :
    P (l.foldl step init) := by
  induction l generalizing init with
  | nil => exact h0
  | cons x xs ih => exact ih _ (hstep _ _ h0)

/-- C7: appending to a full buffer (size equal to capacity) returns `-1`,
writes nothing and leaves size and all stored elements unchanged, for both
`push_back` and `push_back_unsafe`; appending below capacity writes the
element at the slot equal to the previous size, increments the size and
returns that slot, leaving earlier slots untouched. -/
theorem Vec_push_back_spec {T : Type} (v : Vec T) (e : T)
    (hlen : v.m_data.length = v.m_capacity) :
    (v.m_size = v.m_capacity →
      v.push_back e = (v, -1) ∧ v.push_back_seq e = (v, -1)) ∧
    (v.m_size < v.m_capacity →
      (v.push_back e).2 = (v.m_size : ℤ) ∧
      (v.push_back e).1.m_size = v.m_size + 1 ∧
      (v.push_back e).1.m_capacity = v.m_capacity ∧
      (v.push_back e).1.m_data[v.m_size]? = some e ∧
      (∀ k, k < v.m_size → (v.push_back e).1.m_data[k]? = v.m_data[k]?) ∧
      v.push_back_seq e = v.push_back e) := by
  constructor
  · intro hfull
    have hnot : ¬ v.m_size < v.m_capacity := by omega
    constructor
    · simp [Vec.push_back, hnot]
    · simp [Vec.push_back_seq, hnot]
  · intro hlt
    have hslot : v.m_size < v.m_data.length := by omega
    refine ⟨?_, ?_, ?_, ?_, ?_, ?_⟩
    · simp [Vec.push_back, hlt]
    · simp [Vec.push_back, hlt]
    · simp [Vec.push_back, hlt]
    · simp only [Vec.push_back, if_pos hlt]
      exact List.getElem?_set_eq_of_lt e hslot
    · intro k hk
      simp only [Vec.push_back, if_pos hlt]
      exact List.getElem?_set_ne (by omega)
    · rfl

/-- Witness for C7: a full buffer of capacity 3 rejects an append, and a
buffer of size 1, capacity 2 accepts one at slot 1. -/
theorem Vec_push_back_spec_witness :
    ((3 : ℕ) = 3 ∧
      (Vec.mk [5, 6, 7] 3 3 : Vec ℕ).push_back 9 = ((Vec.mk [5, 6, 7] 3 3 : Vec ℕ), -1)) ∧
    ((1 : ℕ) < 2 ∧
      ((Vec.mk [5, 0] 1 2 : Vec ℕ).push_back 9).2 = 1 ∧
      ((Vec.mk [5, 0] 1 2 : Vec ℕ).push_back 9).1.m_data = [5, 9]) := by
  constructor
  · exact ⟨rfl, ((Vec_push_back_spec (Vec.mk [5, 6, 7] 3 3) 9 (by decide)).1 rfl).1⟩
  · exact ⟨by decide, ((Vec_push_back_spec (Vec.mk [5, 0] 1 2) 9 (by decide)).2
      (by decide)).1, by decide⟩

/-- C10: `Vec::reserve(newCapacity)` replaces the backing store with a
fresh allocation of the new capacity but leaves `m_size` unchanged, so a
caller that reserves after appends observes the old size over the new,
unwritten storage. -/
theorem Vec_reserve_keeps_size {T : Type} [Inhabited T] (v : Vec T) (c : ℕ) :
    (v.reserve c).m_size = v.m_size ∧
    (v.reserve c).m_capacity = c ∧
    (v.reserve c).m_data = List.replicate c default := by
  exact ⟨rfl, rfl, rfl⟩

/-- Counterexample to C3 as stated: on a fresh one-point engine
(weight 2/5, `dc = 1`, `rhoc = 1/2`), the first `makeClusters` classifies
the point as an outlier, but the second call on the unchanged engine
doubles the accumulated density (`rho += ...` is never reset), promotes
the point to a seed, and returns different arrays. -/
theorem makeClusters_second_call_differs :
    (makeClusters iroot1 tilesOne kerFlat dPhiSub id cfgOne pOne).2 = ([-1], [false]) ∧
    (makeClusters iroot1 tilesOne kerFlat dPhiSub id cfgOne
      (makeClusters iroot1 tilesOne kerFlat dPhiSub id cfgOne pOne).1).2 = ([0], [true]) ∧
    (makeClusters iroot1 tilesOne kerFlat dPhiSub id cfgOne pOne).2 ≠
      (makeClusters iroot1 tilesOne kerFlat dPhiSub id cfgOne
        (makeClusters iroot1 tilesOne kerFlat dPhiSub id cfgOne pOne).1).2 := by
  have h1 : (makeClusters iroot1 tilesOne kerFlat dPhiSub id cfgOne pOne).2
      = ([-1], [false]) := by
    norm_num [makeClusters, calculateLocalDensity, calculateDistanceToHigher,
      findAndAssignClusters, classifyPoints, classifyStep, expandClusters, expandStep,
      writeEach, searchCandidatesDensity, searchCandidatesHigher, wrapBins, xjBinsDensity,
      xjBinsHigher, scanHigher, scanStep, distance, calculateNTiles, calculateTileSize,
      tilesOne, kerFlat, dPhiSub, iroot1, cfgOne, pOne, emptyEngine, setPoints, vresize,
      seedCond, outlierCond, foundHigherP, fltMax, List.range_succ]
  have h2 : (makeClusters iroot1 tilesOne kerFlat dPhiSub id cfgOne
      (makeClusters iroot1 tilesOne kerFlat dPhiSub id cfgOne pOne).1).2
      = ([0], [true]) := by
    norm_num [makeClusters, calculateLocalDensity, calculateDistanceToHigher,
      findAndAssignClusters, classifyPoints, classifyStep, expandClusters, expandStep,
      writeEach, searchCandidatesDensity, searchCandidatesHigher, wrapBins, xjBinsDensity,
      xjBinsHigher, scanHigher, scanStep, distance, calculateNTiles, calculateTileSize,
      tilesOne, kerFlat, dPhiSub, iroot1, cfgOne, pOne, emptyEngine, setPoints, vresize,
      seedCond, outlierCond, foundHigherP, fltMax, List.range_succ]
  refine ⟨h1, h2, ?_⟩
  rw [h1, h2]
  decide

/-- C3 as amended: a second `makeClusters` returns identical
`(clusterIndex, isSeed)` provided the point state is rebuilt between the
calls (`clearPoints` followed by `setPoints` with the same arguments);
the pipeline is a pure function of the rebuilt state. -/
theorem makeClusters_repeat_after_clear (iroot : ℕ → ℕ → ℕ) (tiles : TilesModel)
    (ker : Kernel) (dPhi : CoordDiff) (sqrtQ : F → F) (cfg : AlgoConfig)
    (p : Points) (n : ℕ) (cs : List (List F)) (ws : List F) :
    (makeClusters iroot tiles ker dPhi sqrtQ cfg
      (setPoints (clearPoints ((makeClusters iroot tiles ker dPhi sqrtQ cfg
        (setPoints (clearPoints p) n cs ws).1).1)) n cs ws).1).2 =
    (makeClusters iroot tiles ker dPhi sqrtQ cfg
      (setPoints (clearPoints p) n cs ws).1).2 := rfl

/-- C4: evaluation at the failing input.  After a one-point
`setPoints` / `makeClusters` run, calling `setPoints` again with the same
`n = 1` returns `false` but leaves the stale accumulated `rho = [2/5]` in
place instead of re-initializing it to `[0]`: `std::vector::resize(n, v)`
is a no-op at unchanged length, and the `points_.clear()` call that the
header documents as automatic is commented out. -/
theorem setPoints_keeps_stale_outputs :
    (setPoints (makeClusters iroot1 tilesOne kerFlat dPhiSub id cfgOne pOne).1
      1 [[0]] [2/5]).2 = false ∧
    (setPoints (makeClusters iroot1 tilesOne kerFlat dPhiSub id cfgOne pOne).1
      1 [[0]] [2/5]).1.rho = [2/5] ∧
    (setPoints (makeClusters iroot1 tilesOne kerFlat dPhiSub id cfgOne pOne).1
      1 [[0]] [2/5]).1.rho ≠ [0] := by
  have h1 : (setPoints (makeClusters iroot1 tilesOne kerFlat dPhiSub id cfgOne pOne).1
      1 [[0]] [2/5]).1.rho = [2/5] := by
    norm_num [makeClusters, calculateLocalDensity, calculateDistanceToHigher,
      findAndAssignClusters, classifyPoints, classifyStep, expandClusters, expandStep,
      writeEach, searchCandidatesDensity, searchCandidatesHigher, wrapBins, xjBinsDensity,
      xjBinsHigher, scanHigher, scanStep, distance, calculateNTiles, calculateTileSize,
      tilesOne, kerFlat, dPhiSub, iroot1, cfgOne, pOne, emptyEngine, setPoints, vresize,
      seedCond, outlierCond, foundHigherP, fltMax, List.range_succ]
  refine ⟨?_, h1, ?_⟩
  · norm_num [setPoints]
  · rw [h1]
    norm_num

/-- Counterexample to C5 as stated: with one point and
`pointsPerTile = 2`, `calculateNTiles` computes zero tiles, merely logs
the diagnostic, and `makeClusters` proceeds through the whole pipeline
and returns a normal classification instead of surfacing a configuration
error to the caller. -/
theorem calculateNTiles_zero_proceeds :
    calculateNTiles pOneHeavy.n cfgOne.pointsPerTile = (0, true) ∧
    (makeClusters iroot1 tilesOne kerFlat dPhiSub id cfgOne pOneHeavy).2
      = ([0], [true]) := by
  constructor
  · norm_num [calculateNTiles, pOneHeavy, setPoints, emptyEngine, cfgOne]
  · norm_num [makeClusters, calculateLocalDensity, calculateDistanceToHigher,
      findAndAssignClusters, classifyPoints, classifyStep, expandClusters, expandStep,
      writeEach, searchCandidatesDensity, searchCandidatesHigher, wrapBins, xjBinsDensity,
      xjBinsHigher, scanHigher, scanStep, distance, calculateNTiles, calculateTileSize,
      tilesOne, kerFlat, dPhiSub, iroot1, cfgOne, pOneHeavy, emptyEngine, setPoints,
      vresize, seedCond, outlierCond, foundHigherP, fltMax, List.range_succ]

/-- Helper: one classification step preserves the lengths of the output
arrays. -/
theorem classifyStep_lengths (cfg : AlgoConfig) (delta rho : List F) (nh : List ℤ)
    (s : AssignState) (i : ℕ) :
    (classifyStep cfg delta rho nh s i).clusterIndex.length = s.clusterIndex.length ∧
    (classifyStep cfg delta rho nh s i).isSeed.length = s.isSeed.length ∧
    (classifyStep cfg delta rho nh s i).followers.length = s.followers.length := by
  simp only [classifyStep]
  split_ifs <;> simp [List.length_set]

/-- Helper: the classification loop preserves the lengths of the output
arrays. -/
theorem classifyPoints_lengths (cfg : AlgoConfig) (delta rho : List F) (nh : List ℤ)
    (n : ℕ) (s0 : AssignState) :
    (classifyPoints cfg delta rho nh n s0).clusterIndex.length = s0.clusterIndex.length ∧
    (classifyPoints cfg delta rho nh n s0).isSeed.length = s0.isSeed.length ∧
    (classifyPoints cfg delta rho nh n s0).followers.length = s0.followers.length := by
  unfold classifyPoints
  refine foldl_inv (fun s : AssignState => s.clusterIndex.length = s0.clusterIndex.length ∧
      s.isSeed.length = s0.isSeed.length ∧ s.followers.length = s0.followers.length)
    (classifyStep cfg delta rho nh) (List.range n) s0 ⟨rfl, rfl, rfl⟩ ?_
  intro b a hb
  obtain ⟨h1, h2, h3⟩ := classifyStep_lengths cfg delta rho nh b a
  exact ⟨h1.trans hb.1, h2.trans hb.2.1, h3.trans hb.2.2⟩

/-- Helper: one expansion step never touches `isSeed`, `followers` or
`nClusters`, and preserves the length of `clusterIndex`. -/
theorem expandStep_frame (s : AssignState) :
    (expandStep s).isSeed = s.isSeed ∧
    (expandStep s).followers = s.followers ∧
    (expandStep s).nClusters = s.nClusters ∧
    (expandStep s).clusterIndex.length = s.clusterIndex.length := by
  unfold expandStep
  rcases hst : s.localStack with _ | ⟨i, rest⟩
  · exact ⟨rfl, rfl, rfl, rfl⟩
  · refine foldl_inv (fun t : AssignState => t.isSeed = s.isSeed ∧ t.followers = s.followers ∧
      t.nClusters = s.nClusters ∧ t.clusterIndex.length = s.clusterIndex.length)
      _ _ _ ⟨rfl, rfl, rfl, rfl⟩ ?_
    intro b a hb
    exact ⟨hb.1, hb.2.1, hb.2.2.1, (List.length_set _ _ _).trans hb.2.2.2⟩

/-- Helper: the expansion loop never touches `isSeed`, `followers` or
`nClusters`, and preserves the length of `clusterIndex`. -/
theorem expandClusters_frame (fuel : ℕ) (s : AssignState) :
    (expandClusters fuel s).isSeed = s.isSeed ∧
    (expandClusters fuel s).followers = s.followers ∧
    (expandClusters fuel s).nClusters = s.nClusters ∧
    (expandClusters fuel s).clusterIndex.length = s.clusterIndex.length := by
  induction fuel generalizing s with
  | zero => exact ⟨rfl, rfl, rfl, rfl⟩
  | succ k ih =>
    rcases hst : s.localStack with _ | ⟨i, rest⟩
    · simp [expandClusters, hst]
    · have hrw : expandClusters (k + 1) s = expandClusters k (expandStep s) := by
        simp [expandClusters, hst]
      obtain ⟨e1, e2, e3, e4⟩ := expandStep_frame s
      obtain ⟨i1, i2, i3, i4⟩ := ih (expandStep s)
      rw [hrw]
      exact ⟨i1.trans e1, i2.trans e2, i3.trans e3, i4.trans e4⟩

/-- C5 as amended: when `pointsPerTile` exceeds the point count (zero
target tiles), `calculateNTiles` returns `0` with the diagnostic flagged,
and `makeClusters` does not stop: it still runs the pipeline to completion
and returns full-length (one entry per point) output arrays; no error
reaches the caller. -/
theorem makeClusters_degenerate_grid_proceeds (iroot : ℕ → ℕ → ℕ)
    (tiles : TilesModel) (ker : Kernel) (dPhi : CoordDiff) (sqrtQ : F → F)
    (cfg : AlgoConfig) (p : Points)
    (h0 : p.n / cfg.pointsPerTile = 0)
    (hci : p.clusterIndex.length = p.n) (hsi : p.isSeed.length = p.n) :
    calculateNTiles p.n cfg.pointsPerTile = (0, true) ∧
    (makeClusters iroot tiles ker dPhi sqrtQ cfg p).2.1.length = p.n ∧
    (makeClusters iroot tiles ker dPhi sqrtQ cfg p).2.2.length = p.n := by
  refine ⟨by simp [calculateNTiles, h0], ?_, ?_⟩
  · simp only [makeClusters, findAndAssignClusters, calculateDistanceToHigher,
      calculateLocalDensity]
    rw [(expandClusters_frame _ _).2.2.2, (classifyPoints_lengths _ _ _ _ _ _).1]
    exact hci
  · simp only [makeClusters, findAndAssignClusters, calculateDistanceToHigher,
      calculateLocalDensity]
    rw [(expandClusters_frame _ _).1, (classifyPoints_lengths _ _ _ _ _ _).2.1]
    exact hsi

/-- Witness for C5 (amended) at a concrete instance: one point,
`pointsPerTile = 2`. -/
theorem makeClusters_degenerate_grid_proceeds_witness :
    calculateNTiles pOneHeavy.n cfgOne.pointsPerTile = (0, true) ∧
    (makeClusters iroot1 tilesOne kerFlat dPhiSub id cfgOne pOneHeavy).2.1.length
      = pOneHeavy.n ∧
    (makeClusters iroot1 tilesOne kerFlat dPhiSub id cfgOne pOneHeavy).2.2.length
      = pOneHeavy.n :=
  makeClusters_degenerate_grid_proceeds iroot1 tilesOne kerFlat dPhiSub id cfgOne
    pOneHeavy
    (by norm_num [pOneHeavy, setPoints, emptyEngine, cfgOne])
    (by norm_num [pOneHeavy, setPoints, emptyEngine, vresize])
    (by norm_num [pOneHeavy, setPoints, emptyEngine, vresize])

/-- Counterexample to C6 as stated: after a one-point run, `setPoints`
with `n = 0` returns `true`, yet the following `makeClusters` returns the
stale length-1 arrays of the previous run, not a pair of empty arrays
(`setPoints` never cleared them). -/
theorem makeClusters_empty_returns_stale :
    (setPoints (makeClusters iroot1 tilesOne kerFlat dPhiSub id cfgOne pOne).1
      0 [[]] []).2 = true ∧
    (makeClusters iroot1 tilesOne kerFlat dPhiSub id cfgOne
      (setPoints (makeClusters iroot1 tilesOne kerFlat dPhiSub id cfgOne pOne).1
        0 [[]] []).1).2 = ([-1], [false]) ∧
    ([(-1 : ℤ)], [false]) ≠ (([] : List ℤ), ([] : List Bool)) := by
  refine ⟨?_, ?_, by decide⟩
  · norm_num [setPoints]
  · norm_num [makeClusters, calculateLocalDensity, calculateDistanceToHigher,
      findAndAssignClusters, classifyPoints, classifyStep, expandClusters, expandStep,
      writeEach, searchCandidatesDensity, searchCandidatesHigher, wrapBins, xjBinsDensity,
      xjBinsHigher, scanHigher, scanStep, distance, calculateNTiles, calculateTileSize,
      tilesOne, kerFlat, dPhiSub, iroot1, cfgOne, pOne, emptyEngine, setPoints, vresize,
      seedCond, outlierCond, foundHigherP, fltMax, List.range_succ]

/-- C6 as amended: `makeClusters` on an engine whose stored point count
is zero is a no-op that returns the currently stored
`(clusterIndex, isSeed)` arrays unchanged and reports no error; these are
empty exactly when no earlier nonempty results linger. -/
theorem makeClusters_empty_noop (iroot : ℕ → ℕ → ℕ) (tiles : TilesModel)
    (ker : Kernel) (dPhi : CoordDiff) (sqrtQ : F → F) (cfg : AlgoConfig)
    (p : Points) (h : p.n = 0) :
    (makeClusters iroot tiles ker dPhi sqrtQ cfg p).2 = (p.clusterIndex, p.isSeed) := by
  rcases p with ⟨n, cs, ws, rho, delta, nh, fol, ci, isd⟩
  simp only at h
  subst h
  rfl

/-- Witness for C6 (amended): on a fresh engine the returned arrays are
empty. -/
theorem makeClusters_empty_noop_witness :
    (makeClusters iroot1 tilesOne kerFlat dPhiSub id cfgOne emptyEngine).2
      = (([] : List ℤ), ([] : List Bool)) :=
  makeClusters_empty_noop iroot1 tilesOne kerFlat dPhiSub id cfgOne emptyEngine rfl

/-- Helper: indexing a map over `List.range`. -/
theorem getD_map_range {α : Type} (n : ℕ) (f : ℕ → α) (dim : ℕ) (d : α)
    (h : dim < n) :
    ((List.range n).map f).getD dim d = f dim := by
  simp [List.getD, List.getElem?_map, List.getElem?_range, h]

/-- Helper: membership in one dimension's wrap-extended bin list.  The
underflow extension is reachable only when the overflow condition fails,
because the source uses an `if` / `else if`. -/
theorem wrapBins_membership (tiles : TilesModel) (r x : F) (dom : domain_t)
    (dim : ℕ) (b : ℤ) :
    b ∈ wrapBins tiles r x dom dim ↔
      b ∈ tiles.getBinsFromRange (x - r) (x + r) dim ∨
      (x + r > dom.max ∧ b ∈ tiles.getBinsFromRange dom.min (dom.min + r) dim) ∨
      (¬ x + r > dom.max ∧ x - r < dom.min ∧
        b ∈ tiles.getBinsFromRange (dom.max - r) dom.max dim) := by
  unfold wrapBins
  split_ifs with h1 h2
  · simp [List.mem_append, h1]
  · simp [List.mem_append, h1, h2]
  · simp [List.mem_append, h1, h2]

/-- C8 as amended: in both the density search (radius `dc`) and the
nearest-higher search (radius `dm`), a bin is enumerated for a dimension
iff it lies in the base window bins, or the window exceeds the domain max
and it lies in the max-side wrap bins, or the window does not exceed the
max, falls below the domain min, and it lies in the min-side wrap bins.
The two extensions are an `if` / `else if`, not independent. -/
theorem xjBins_wrap_membership (tiles : TilesModel) (cfg : AlgoConfig)
    (coords : List (List F)) (i dim : ℕ) (hdim : dim < cfg.Ndim) (b : ℤ) :
    (b ∈ (xjBinsDensity tiles cfg coords i).getD dim [] ↔
      b ∈ wrapBins tiles cfg.dc ((coords.getD dim []).getD i 0)
            (cfg.domains.getD dim {}) dim) ∧
    (b ∈ (xjBinsHigher tiles cfg coords i).getD dim [] ↔
      b ∈ wrapBins tiles (cfg.outlierDeltaFactor * cfg.dc)
            ((coords.getD dim []).getD i 0) (cfg.domains.getD dim {}) dim) ∧
    (b ∈ wrapBins tiles cfg.dc ((coords.getD dim []).getD i 0)
            (cfg.domains.getD dim {}) dim ↔
      b ∈ tiles.getBinsFromRange ((coords.getD dim []).getD i 0 - cfg.dc)
            ((coords.getD dim []).getD i 0 + cfg.dc) dim ∨
      ((coords.getD dim []).getD i 0 + cfg.dc > (cfg.domains.getD dim {}).max ∧
        b ∈ tiles.getBinsFromRange (cfg.domains.getD dim {}).min
              ((cfg.domains.getD dim {}).min + cfg.dc) dim) ∨
      (¬ (coords.getD dim []).getD i 0 + cfg.dc > (cfg.domains.getD dim {}).max ∧
        (coords.getD dim []).getD i 0 - cfg.dc < (cfg.domains.getD dim {}).min ∧
        b ∈ tiles.getBinsFromRange ((cfg.domains.getD dim {}).max - cfg.dc)
              (cfg.domains.getD dim {}).max dim)) ∧
    (b ∈ wrapBins tiles (cfg.outlierDeltaFactor * cfg.dc)
            ((coords.getD dim []).getD i 0) (cfg.domains.getD dim {}) dim ↔
      b ∈ tiles.getBinsFromRange
            ((coords.getD dim []).getD i 0 - cfg.outlierDeltaFactor * cfg.dc)
            ((coords.getD dim []).getD i 0 + cfg.outlierDeltaFactor * cfg.dc) dim ∨
      ((coords.getD dim []).getD i 0 + cfg.outlierDeltaFactor * cfg.dc >
            (cfg.domains.getD dim {}).max ∧
        b ∈ tiles.getBinsFromRange (cfg.domains.getD dim {}).min
              ((cfg.domains.getD dim {}).min + cfg.outlierDeltaFactor * cfg.dc) dim) ∨
      (¬ (coords.getD dim []).getD i 0 + cfg.outlierDeltaFactor * cfg.dc >
            (cfg.domains.getD dim {}).max ∧
        (coords.getD dim []).getD i 0 - cfg.outlierDeltaFactor * cfg.dc <
            (cfg.domains.getD dim {}).min ∧
        b ∈ tiles.getBinsFromRange
              ((cfg.domains.getD dim {}).max - cfg.outlierDeltaFactor * cfg.dc)
              (cfg.domains.getD dim {}).max dim)) := by
  refine ⟨?_, ?_, wrapBins_membership _ _ _ _ _ _, wrapBins_membership _ _ _ _ _ _⟩
  · rw [xjBinsDensity, getD_map_range _ _ _ _ hdim]
  · rw [xjBinsHigher, getD_map_range _ _ _ _ hdim]

/-- Counterexample to C8 as stated: a window that overflows the max and
underflows the min of the same dimension gets only the max-side extension;
the bin `2` covering the min-side wrap region `[domainMax - r, domainMax]`
is not enumerated. -/
theorem xjBins_both_overflow_drops_underflow :
    ((1 : F)/2 + 2 > (1 : F)) ∧ ((1 : F)/2 - 2 < (0 : F)) ∧
    (2 : ℤ) ∈ tilesCex.getBinsFromRange ((1 : F) - 2) 1 0 ∧
    (2 : ℤ) ∉ (xjBinsDensity tilesCex cfgCex [[1/2]] 0).getD 0 [] := by
  refine ⟨by norm_num, by norm_num, ?_, ?_⟩
  · norm_num [tilesCex]
  · norm_num [xjBinsDensity, wrapBins, tilesCex, cfgCex, List.range_succ]

/-- Witness for C8 (amended): the base window bin `3` is enumerated at
the concrete wrap instance. -/
theorem xjBins_wrap_membership_witness :
    (3 : ℤ) ∈ (xjBinsDensity tilesCex cfgCex [[1/2]] 0).getD 0 [] :=
  ((xjBins_wrap_membership tilesCex cfgCex [[1/2]] 0 0 (by norm_num [cfgCex]) 3).1).mpr
    ((xjBins_wrap_membership tilesCex cfgCex [[1/2]] 0 0 (by norm_num [cfgCex]) 3).2.2.1.mpr
      (Or.inl (by norm_num [tilesCex, cfgCex])))

/-- Helper: a property preserved by every step of a fold over members of
the list holds of the fold's result. -/
theorem foldl_inv_mem {α β : Type} (P : β → Prop) (step : β → α → β) (l : List α)
    (init : β) (h0 : P init)
    (hstep : ∀ b a, a ∈ l → P b → P (step b a)) :
    P (l.foldl step init) := by
  induction l generalizing init with
  | nil => exact h0
  | cons x xs ih =>
    exact ih _ (hstep _ _ (List.mem_cons_self _ _) h0)
      (fun b a ha hb => hstep b a (List.mem_cons_of_mem _ ha) hb)

/-- Helper: reading a replicated list with its element as the default. -/
theorem getD_replicate {α : Type} (n m : ℕ) (a : α) :
    (List.replicate n a).getD m a = a := by
  induction n generalizing m with
  | zero => cases m <;> rfl
  | succ k ih =>
    cases m with
    | zero => rfl
    | succ m2 => exact ih m2

/-- Helper: a filter over `range (k+1)` appends at most the new index. -/
theorem filter_range_succ (p : ℕ → Bool) (k : ℕ) :
    (List.range (k + 1)).filter p =
      (List.range k).filter p ++ (if p k then [k] else []) := by
  by_cases hp : p k <;> simp [List.range_succ, List.filter_append, hp]

/-- Helper: one more point adds one to the seed count exactly when it
satisfies the seed condition. -/
theorem seedCountBelow_succ (cfg : AlgoConfig) (delta rho : List F) (k : ℕ) :
    seedCountBelow cfg delta rho (k + 1) =
      seedCountBelow cfg delta rho k +
        (if seedCond cfg delta rho k then 1 else 0) := by
  unfold seedCountBelow
  rw [filter_range_succ]
  by_cases h : seedCond cfg delta rho k <;> simp [h]

/-- Helper: unfolding one iteration of the classification loop. -/
theorem classifyPoints_succ (cfg : AlgoConfig) (delta rho : List F) (nh : List ℤ)
    (k : ℕ) (s0 : AssignState) :
    classifyPoints cfg delta rho nh (k + 1) s0 =
      classifyStep cfg delta rho nh (classifyPoints cfg delta rho nh k s0) k := by
  simp [classifyPoints, List.range_succ]

/-- Invariant of the classification loop after the first `k` points, on a
state with zeroed counter, fresh `isSeed` and empty follower lists:
`nClusters` counts the seeds so far, seeds carry `isSeed = true` and the
id equal to the number of earlier seeds, everyone else classified so far
carries `-1`, and each follower list holds exactly the followers
registered so far. -/
theorem classifyPoints_inv (cfg : AlgoConfig) (delta rho : List F) (nh : List ℤ)
    (n : ℕ) (s0 : AssignState)
    (hnc : s0.nClusters = 0)
    (hci : s0.clusterIndex.length = n)
    (hseed0 : s0.isSeed = List.replicate n false)
    (hfol0 : s0.followers = List.replicate n [])
    (htgt : ∀ m, m < n → (nh.getD m (-1)).toNat < n)
    (k : ℕ) (hk : k ≤ n) :
    (classifyPoints cfg delta rho nh k s0).nClusters = seedCountBelow cfg delta rho k ∧
    (classifyPoints cfg delta rho nh k s0).clusterIndex.length = n ∧
    (classifyPoints cfg delta rho nh k s0).isSeed.length = n ∧
    (classifyPoints cfg delta rho nh k s0).followers.length = n ∧
    (∀ m, (classifyPoints cfg delta rho nh k s0).isSeed.getD m false = true ↔
      (m < k ∧ seedCond cfg delta rho m)) ∧
    (∀ m, m < k → (classifyPoints cfg delta rho nh k s0).clusterIndex.getD m (-1) =
      if seedCond cfg delta rho m then (seedCountBelow cfg delta rho m : ℤ) else -1) ∧
    (∀ m, k ≤ m → (classifyPoints cfg delta rho nh k s0).clusterIndex.getD m (-1) =
      s0.clusterIndex.getD m (-1)) ∧
    (∀ t, (classifyPoints cfg delta rho nh k s0).followers.getD t [] =
      (List.range k).filter (fun m =>
        decide ((¬ seedCond cfg delta rho m ∧ ¬ outlierCond cfg delta rho m) ∧
          (nh.getD m (-1)).toNat = t))) := by
  induction k with
  | zero =>
    have h0 : classifyPoints cfg delta rho nh 0 s0 = s0 := rfl
    rw [h0]
    refine ⟨by simp [seedCountBelow, hnc], hci, by simp [hseed0], by simp [hfol0],
      ?_, ?_, fun m _ => rfl, ?_⟩
    · intro m
      rw [hseed0, getD_replicate]
      simp
    · intro m hm
      omega
    · intro t
      rw [hfol0, getD_replicate]
      simp
  | succ k ih =>
    have hkn : k < n := by omega
    obtain ⟨ih1, ih2, ih3, ih4, ih5, ih6, ih7, ih8⟩ := ih (by omega)
    rw [classifyPoints_succ]
    by_cases hsd : seedCond cfg delta rho k
    · -- seed branch
      have hstep : classifyStep cfg delta rho nh
          (classifyPoints cfg delta rho nh k s0) k =
          { (classifyPoints cfg delta rho nh k s0) with
            isSeed := (classifyPoints cfg delta rho nh k s0).isSeed.set k true,
            clusterIndex := ((classifyPoints cfg delta rho nh k s0).clusterIndex.set
              k (-1)).set k ((classifyPoints cfg delta rho nh k s0).nClusters : ℤ),
            nClusters := (classifyPoints cfg delta rho nh k s0).nClusters + 1,
            localStack := k :: (classifyPoints cfg delta rho nh k s0).localStack } := by
        simp [classifyStep, hsd]
      rw [hstep]
      refine ⟨?_, ?_, ?_, ?_, ?_, ?_, ?_, ?_⟩
      · simp only [ih1, seedCountBelow_succ, if_pos hsd]
      · simp [List.length_set, ih2]
      · simp [List.length_set, ih3]
      · exact ih4
      · intro m
        rcases eq_or_ne m k with rfl | hmk
        · rw [getD_set_self _ _ _ _ (by rw [ih3]; exact hkn)]
          simp [hsd]
        · rw [getD_set_ne _ _ _ _ _ (fun h => hmk h.symm)]
          rw [ih5 m]
          constructor
          · rintro ⟨h1, h2⟩; exact ⟨by omega, h2⟩
          · rintro ⟨h1, h2⟩; exact ⟨by omega, h2⟩
      · intro m hm
        rcases eq_or_ne m k with rfl | hmk
        · rw [getD_set_self _ _ _ _
            (by rw [List.length_set, ih2]; exact hkn)]
          rw [if_pos hsd, ih1]
        · have hmlt : m < k := by omega
          rw [getD_set_ne _ _ _ _ _ (fun h => hmk h.symm),
            getD_set_ne _ _ _ _ _ (fun h => hmk h.symm)]
          exact ih6 m hmlt
      · intro m hm
        have hmk : k ≠ m := by omega
        rw [getD_set_ne _ _ _ _ _ hmk, getD_set_ne _ _ _ _ _ hmk]
        exact ih7 m (by omega)
      · intro t
        rw [filter_range_succ]
        have hcond : decide ((¬ seedCond cfg delta rho k ∧
            ¬ outlierCond cfg delta rho k) ∧ (nh.getD k (-1)).toNat = t) = false :=
          decide_eq_false (fun h => h.1.1 hsd)
        rw [hcond, if_neg (by simp), List.append_nil]
        exact ih8 t
    · by_cases hol : outlierCond cfg delta rho k
      · -- outlier branch
        have hstep : classifyStep cfg delta rho nh
            (classifyPoints cfg delta rho nh k s0) k =
            { (classifyPoints cfg delta rho nh k s0) with
              clusterIndex :=
                (classifyPoints cfg delta rho nh k s0).clusterIndex.set k (-1) } := by
          simp [classifyStep, hsd, hol]
        rw [hstep]
        refine ⟨?_, ?_, ih3, ih4, ?_, ?_, ?_, ?_⟩
        · simp only [ih1, seedCountBelow_succ, if_neg hsd, Nat.add_zero]
        · simp [List.length_set, ih2]
        · intro m
          rw [ih5 m]
          constructor
          · rintro ⟨h1, h2⟩; exact ⟨by omega, h2⟩
          · rintro ⟨h1, h2⟩
            rcases eq_or_ne m k with rfl | hmk
            · exact absurd h2 hsd
            · exact ⟨by omega, h2⟩
        · intro m hm
          rcases eq_or_ne m k with rfl | hmk
          · rw [getD_set_self _ _ _ _ (by rw [ih2]; exact hkn)]
            rw [if_neg hsd]
          · rw [getD_set_ne _ _ _ _ _ (fun h => hmk h.symm)]
            exact ih6 m (by omega)
        · intro m hm
          have hmk : k ≠ m := by omega
          rw [getD_set_ne _ _ _ _ _ hmk]
          exact ih7 m (by omega)
        · intro t
          rw [filter_range_succ]
          have hcond : decide ((¬ seedCond cfg delta rho k ∧
              ¬ outlierCond cfg delta rho k) ∧ (nh.getD k (-1)).toNat = t) = false :=
            decide_eq_false (fun h => h.1.2 hol)
          rw [hcond, if_neg (by simp), List.append_nil]
          exact ih8 t
      · -- follower branch
        have hstep : classifyStep cfg delta rho nh
            (classifyPoints cfg delta rho nh k s0) k =
            { (classifyPoints cfg delta rho nh k s0) with
              clusterIndex :=
                (classifyPoints cfg delta rho nh k s0).clusterIndex.set k (-1),
              followers :=
                (classifyPoints cfg delta rho nh k s0).followers.set
                  (nh.getD k (-1)).toNat
                  ((classifyPoints cfg delta rho nh k s0).followers.getD
                    (nh.getD k (-1)).toNat [] ++ [k]) } := by
          simp [classifyStep, hsd, hol]
        rw [hstep]
        refine ⟨?_, ?_, ih3, ?_, ?_, ?_, ?_, ?_⟩
        · simp only [ih1, seedCountBelow_succ, if_neg hsd, Nat.add_zero]
        · simp [List.length_set, ih2]
        · simp [List.length_set, ih4]
        · intro m
          rw [ih5 m]
          constructor
          · rintro ⟨h1, h2⟩; exact ⟨by omega, h2⟩
          · rintro ⟨h1, h2⟩
            rcases eq_or_ne m k with rfl | hmk
            · exact absurd h2 hsd
            · exact ⟨by omega, h2⟩
        · intro m hm
          rcases eq_or_ne m k with rfl | hmk
          · rw [getD_set_self _ _ _ _ (by rw [ih2]; exact hkn)]
            rw [if_neg hsd]
          · rw [getD_set_ne _ _ _ _ _ (fun h => hmk h.symm)]
            exact ih6 m (by omega)
        · intro m hm
          have hmk : k ≠ m := by omega
          rw [getD_set_ne _ _ _ _ _ hmk]
          exact ih7 m (by omega)
        · intro t
          rw [filter_range_succ]
          rcases eq_or_ne t (nh.getD k (-1)).toNat with rfl | htk
          · rw [getD_set_self _ _ _ _ (by rw [ih4]; exact htgt k hkn)]
            have hcond : decide ((¬ seedCond cfg delta rho k ∧
                ¬ outlierCond cfg delta rho k) ∧
                (nh.getD k (-1)).toNat = (nh.getD k (-1)).toNat) = true :=
              decide_eq_true ⟨⟨hsd, hol⟩, rfl⟩
            rw [hcond, if_pos rfl, ih8]
          · rw [getD_set_ne _ _ _ _ _ (fun h => htk h.symm)]
            have hcond : decide ((¬ seedCond cfg delta rho k ∧
                ¬ outlierCond cfg delta rho k) ∧
                (nh.getD k (-1)).toNat = t) = false :=
              decide_eq_false (fun h => htk h.2.symm)
            rw [hcond, if_neg (by simp), List.append_nil]
            exact ih8 t

/-- Helper: one expansion step does not change `clusterIndex` at an index
that appears in no follower list. -/
theorem expandStep_clusterIndex_frame (s : AssignState) (m : ℕ)
    (hm : ∀ t, m ∉ s.followers.getD t []) :
    (expandStep s).clusterIndex.getD m (-1) = s.clusterIndex.getD m (-1) := by
  unfold expandStep
  rcases hst : s.localStack with _ | ⟨i0, rest⟩
  · rfl
  · refine foldl_inv_mem
      (fun t : AssignState => t.clusterIndex.getD m (-1) = s.clusterIndex.getD m (-1))
      _ _ _ rfl ?_
    intro b j hj hb
    have hjm : j ≠ m := fun h => hm i0 (h ▸ hj)
    rw [← hb]
    exact getD_set_ne _ _ _ _ _ hjm

/-- Helper: the expansion loop does not change `clusterIndex` at an index
that appears in no follower list. -/
theorem expandClusters_clusterIndex_frame (fuel : ℕ) (s : AssignState) (m : ℕ)
    (hm : ∀ t, m ∉ s.followers.getD t []) :
    (expandClusters fuel s).clusterIndex.getD m (-1) = s.clusterIndex.getD m (-1) := by
  induction fuel generalizing s with
  | zero => rfl
  | succ f ihf =>
    rcases hst : s.localStack with _ | ⟨i0, rest⟩
    · simp [expandClusters, hst]
    · rw [show expandClusters (f + 1) s = expandClusters f (expandStep s) by
        simp [expandClusters, hst]]
      rw [ihf (expandStep s) (by rw [(expandStep_frame s).2.1]; exact hm)]
      exact expandStep_clusterIndex_frame s m hm

/-- C2: in `findAndAssignClusters` (entered with fresh `isSeed` and empty
follower lists, nearest-higher indices in range, and `-1` links coming
only with sentinel `delta`), a point is marked a seed iff
`delta > dc` and `rho >= rhoc`; a seed's cluster id is the number of
lower-index seeds (so ids are `0, 1, 2, ...` in point order); a point ends
with `clusterIndex = -1` and membership in no follower list iff it is an
outlier (non-seed with `delta > dm` and `rho < rhoc`); and every remaining
point is registered into `followers[nearestHigher[i]]` with a non-negative
`nearestHigher`. -/
theorem findAndAssignClusters_classification (cfg : AlgoConfig) (p : Points) (i : ℕ)
    (hi : i < p.n)
    (hci : p.clusterIndex.length = p.n)
    (hseed0 : p.isSeed = List.replicate p.n false)
    (hfol0 : p.followers = List.replicate p.n [])
    (hnhrange : ∀ m, m < p.n → (p.nearestHigher.getD m (-1)).toNat < p.n)
    (hnhval : ∀ m, m < p.n →
      p.nearestHigher.getD m (-1) = -1 ∨ 0 ≤ p.nearestHigher.getD m (-1))
    (hlink : ∀ m, m < p.n → p.nearestHigher.getD m (-1) = -1 →
      p.delta.getD m 0 = fltMax)
    (hdc : cfg.dc < fltMax) (hdm : cfg.outlierDeltaFactor * cfg.dc < fltMax) :
    ((findAndAssignClusters cfg p).isSeed.getD i false = true ↔
        seedCond cfg p.delta p.rho i) ∧
    (seedCond cfg p.delta p.rho i →
        (findAndAssignClusters cfg p).clusterIndex.getD i (-1) =
          (seedCountBelow cfg p.delta p.rho i : ℤ)) ∧
    (((findAndAssignClusters cfg p).clusterIndex.getD i (-1) = -1 ∧
        ∀ t, i ∉ (findAndAssignClusters cfg p).followers.getD t []) ↔
      (¬ seedCond cfg p.delta p.rho i ∧ outlierCond cfg p.delta p.rho i)) ∧
    ((¬ seedCond cfg p.delta p.rho i ∧ ¬ outlierCond cfg p.delta p.rho i) →
      0 ≤ p.nearestHigher.getD i (-1) ∧
      i ∈ (findAndAssignClusters cfg p).followers.getD
            (p.nearestHigher.getD i (-1)).toNat []) := by
  obtain ⟨inv1, inv2, inv3, inv4, inv5, inv6, inv7, inv8⟩ :=
    classifyPoints_inv cfg p.delta p.rho p.nearestHigher p.n
      ⟨0, [], p.clusterIndex, p.isSeed, p.followers⟩ rfl hci hseed0 hfol0 hnhrange
      p.n (le_refl _)
  have hfol : (findAndAssignClusters cfg p).followers =
      (classifyPoints cfg p.delta p.rho p.nearestHigher p.n
        ⟨0, [], p.clusterIndex, p.isSeed, p.followers⟩).followers :=
    (expandClusters_frame ((p.n + 1) ^ (p.n + 1)) _).2.1
  have hIsSeed : (findAndAssignClusters cfg p).isSeed =
      (classifyPoints cfg p.delta p.rho p.nearestHigher p.n
        ⟨0, [], p.clusterIndex, p.isSeed, p.followers⟩).isSeed :=
    (expandClusters_frame ((p.n + 1) ^ (p.n + 1)) _).1
  have hunregSeed : seedCond cfg p.delta p.rho i → ∀ t,
      i ∉ (classifyPoints cfg p.delta p.rho p.nearestHigher p.n
        ⟨0, [], p.clusterIndex, p.isSeed, p.followers⟩).followers.getD t [] := by
    intro hsd t hmem
    rw [inv8 t] at hmem
    exact (of_decide_eq_true (List.mem_filter.mp hmem).2).1.1 hsd
  have hunregOut : outlierCond cfg p.delta p.rho i → ∀ t,
      i ∉ (classifyPoints cfg p.delta p.rho p.nearestHigher p.n
        ⟨0, [], p.clusterIndex, p.isSeed, p.followers⟩).followers.getD t [] := by
    intro hol t hmem
    rw [inv8 t] at hmem
    exact (of_decide_eq_true (List.mem_filter.mp hmem).2).1.2 hol
  have hcfSeed : seedCond cfg p.delta p.rho i →
      (findAndAssignClusters cfg p).clusterIndex.getD i (-1) =
        (seedCountBelow cfg p.delta p.rho i : ℤ) := by
    intro hsd
    have hcf : (findAndAssignClusters cfg p).clusterIndex.getD i (-1) =
        (classifyPoints cfg p.delta p.rho p.nearestHigher p.n
          ⟨0, [], p.clusterIndex, p.isSeed, p.followers⟩).clusterIndex.getD i (-1) :=
      expandClusters_clusterIndex_frame ((p.n + 1) ^ (p.n + 1)) _ i (hunregSeed hsd)
    rw [hcf, inv6 i hi, if_pos hsd]
  refine ⟨?_, hcfSeed, ?_, ?_⟩
  · rw [hIsSeed, inv5 i]
    exact and_iff_right hi
  · constructor
    · rintro ⟨hciM1, hnotreg⟩
      rw [hfol] at hnotreg
      by_cases hsd : seedCond cfg p.delta p.rho i
      · exfalso
        rw [hcfSeed hsd] at hciM1
        omega
      · by_cases hol : outlierCond cfg p.delta p.rho i
        · exact ⟨hsd, hol⟩
        · exfalso
          apply hnotreg (p.nearestHigher.getD i (-1)).toNat
          rw [inv8]
          exact List.mem_filter.mpr ⟨List.mem_range.mpr hi,
            decide_eq_true ⟨⟨hsd, hol⟩, rfl⟩⟩
    · rintro ⟨hsd, hol⟩
      refine ⟨?_, ?_⟩
      · have hcf : (findAndAssignClusters cfg p).clusterIndex.getD i (-1) =
            (classifyPoints cfg p.delta p.rho p.nearestHigher p.n
              ⟨0, [], p.clusterIndex, p.isSeed, p.followers⟩).clusterIndex.getD
              i (-1) :=
          expandClusters_clusterIndex_frame ((p.n + 1) ^ (p.n + 1)) _ i (hunregOut hol)
        rw [hcf, inv6 i hi, if_neg hsd]
      · intro t
        rw [hfol]
        exact hunregOut hol t
  · rintro ⟨hsd, hol⟩
    refine ⟨?_, ?_⟩
    · rcases hnhval i hi with hneg | hpos
      · exfalso
        have hdelta := hlink i hi hneg
        apply hol
        constructor
        · rw [hdelta]; exact hdm
        · by_contra hge
          exact hsd ⟨by rw [hdelta]; exact hdc, not_lt.mp hge⟩
      · exact hpos
    · rw [hfol, inv8]
      exact List.mem_filter.mpr ⟨List.mem_range.mpr hi,
        decide_eq_true ⟨⟨hsd, hol⟩, rfl⟩⟩

/-- Witness for C2 at the concrete two-point instance: point `0` is a
follower and ends up registered in the follower list of its nearest
higher `1`. -/
theorem findAndAssignClusters_classification_witness :
    (¬ seedCond cfgOne p2w.delta p2w.rho 0 ∧
      ¬ outlierCond cfgOne p2w.delta p2w.rho 0) ∧
    (0 ≤ p2w.nearestHigher.getD 0 (-1) ∧
      0 ∈ (findAndAssignClusters cfgOne p2w).followers.getD
            (p2w.nearestHigher.getD 0 (-1)).toNat []) := by
  have hns : ¬ seedCond cfgOne p2w.delta p2w.rho 0 := by
    intro h
    unfold seedCond at h
    norm_num [p2w, cfgOne] at h
  have hno : ¬ outlierCond cfgOne p2w.delta p2w.rho 0 := by
    intro h
    unfold outlierCond at h
    norm_num [p2w, cfgOne] at h
  refine ⟨⟨hns, hno⟩, ?_⟩
  refine (findAndAssignClusters_classification cfgOne p2w 0
    (by decide) (by decide) (by decide) rfl (by decide) (by decide)
    ?_ (by norm_num [cfgOne, fltMax]) (by norm_num [cfgOne, fltMax])).2.2.2
    ⟨hns, hno⟩
  intro m hm hnh
  rcases m with _ | _ | m
  · exact absurd hnh (by decide)
  · rfl
  · have hn2 : p2w.n = 2 := rfl
    omega

/-- Helper: the lexicographic order is transitive. -/
theorem lexLt_trans (rho : List F) (a b c : ℕ) (h1 : lexLt rho a b)
    (h2 : lexLt rho b c) : lexLt rho a c := by
  unfold lexLt at *
  rcases h1 with h1 | ⟨h1e, h1i⟩ <;> rcases h2 with h2 | ⟨h2e, h2i⟩
  · exact Or.inl (h1.trans h2)
  · exact Or.inl (h2e ▸ h1)
  · exact Or.inl (h1e ▸ h2)
  · exact Or.inr ⟨h1e.trans h2e, h1i.trans h2i⟩

/-- Helper: the lexicographic order is irreflexive. -/
theorem lexLt_irrefl (rho : List F) (a : ℕ) : ¬ lexLt rho a a := by
  unfold lexLt
  rintro (h | ⟨-, h⟩)
  · exact lt_irrefl _ h
  · exact lt_irrefl _ h

/-- Helper: rank is strictly monotone along the lexicographic order. -/
theorem rankOf_lt_of_lexLt (rho : List F) (n : ℕ) (a b : ℕ) (ha : a < n)
    (h : lexLt rho a b) : rankOf rho n a < rankOf rho n b := by
  unfold rankOf
  apply Finset.card_lt_card
  rw [Finset.ssubset_iff_of_subset]
  · exact ⟨a, Finset.mem_filter.mpr ⟨Finset.mem_range.mpr ha, h⟩,
      fun hmem => lexLt_irrefl rho a (Finset.mem_filter.mp hmem).2⟩
  · intro x hx
    obtain ⟨hx1, hx2⟩ := Finset.mem_filter.mp hx
    exact Finset.mem_filter.mpr ⟨hx1, lexLt_trans rho x a b hx2 h⟩

/-- Helper: every rank is below the point count. -/
theorem rankOf_lt_n (rho : List F) (n : ℕ) (a : ℕ) (ha : a < n) :
    rankOf rho n a < n := by
  unfold rankOf
  have h := Finset.card_lt_card (t := Finset.range n)
    (s := (Finset.range n).filter (fun b => lexLt rho b a)) ?_
  · simpa using h
  · rw [Finset.ssubset_iff_of_subset (Finset.filter_subset _ _)]
    exact ⟨a, Finset.mem_range.mpr ha, by simp [lexLt_irrefl]⟩

/-- Helper: measure of a pushed stack. -/
theorem stackMeasure_cons (rho : List F) (n : ℕ) (p : ℕ) (st : List ℕ) :
    stackMeasure rho n (p :: st) =
      (n + 1) ^ rankOf rho n p + stackMeasure rho n st := by
  simp [stackMeasure]

/-- Helper: the measure is additive over concatenation. -/
theorem stackMeasure_append (rho : List F) (n : ℕ) (l1 l2 : List ℕ) :
    stackMeasure rho n (l1 ++ l2) =
      stackMeasure rho n l1 + stackMeasure rho n l2 := by
  simp [stackMeasure]

/-- Helper: the measure ignores order. -/
theorem stackMeasure_reverse (rho : List F) (n : ℕ) (l : List ℕ) :
    stackMeasure rho n l.reverse = stackMeasure rho n l := by
  simp [stackMeasure, List.map_reverse, List.sum_reverse]

/-- Helper: popping `i` replaces it by the followers of `i` (pushed one by
one, so reversed) on top of the remaining stack. -/
theorem expandStep_stack (s : AssignState) (i : ℕ) (rest : List ℕ)
    (hst : s.localStack = i :: rest) :
    (expandStep s).localStack = (s.followers.getD i []).reverse ++ rest := by
  have hgen : ∀ (fs : List ℕ) (t0 : AssignState),
      (fs.foldl (fun t j =>
        { t with clusterIndex := t.clusterIndex.set j (t.clusterIndex.getD i (-1)),
                 localStack := j :: t.localStack }) t0).localStack =
        fs.reverse ++ t0.localStack := by
    intro fs
    induction fs with
    | nil => intro t0; simp
    | cons x xs ih =>
      intro t0
      rw [List.foldl_cons, ih]
      simp
  unfold expandStep
  rw [hst]
  exact hgen _ _

/-- Helper: when the follower lists invert a nearest-higher relation that
respects the lexicographic order, one expansion iteration strictly
decreases the stack measure: the popped point of rank `r` is replaced by
at most `n` points of rank below `r`. -/
theorem expandStep_measure_lt (n : ℕ) (rho : List F) (nh : List ℤ)
    (cond : ℕ → Bool) (s : AssignState) (i : ℕ) (rest : List ℕ)
    (hst : s.localStack = i :: rest)
    (hfol : ∀ t : ℕ, s.followers.getD t [] =
      (List.range n).filter (fun m => cond m && (nh.getD m (-1) == (t : ℤ))))
    (hlex : ∀ m, m < n → ∀ t : ℕ, nh.getD m (-1) = (t : ℤ) → lexLt rho m t) :
    stackMeasure rho n (expandStep s).localStack <
      stackMeasure rho n s.localStack := by
  rw [expandStep_stack s i rest hst, hst, stackMeasure_cons, stackMeasure_append,
    stackMeasure_reverse]
  have hmem : ∀ m ∈ s.followers.getD i [], rankOf rho n m < rankOf rho n i := by
    intro m hm
    rw [hfol i] at hm
    have h1 := List.mem_filter.mp hm
    have hmn : m < n := List.mem_range.mp h1.1
    have hco := (Bool.and_eq_true _ _).mp h1.2
    have heq : nh.getD m (-1) = (i : ℤ) := eq_of_beq hco.2
    exact rankOf_lt_of_lexLt rho n m i hmn (hlex m hmn i heq)
  have hsub : stackMeasure rho n (s.followers.getD i []) <
      (n + 1) ^ rankOf rho n i := by
    by_cases hfs : s.followers.getD i [] = []
    · rw [hfs]
      simp only [stackMeasure, List.map_nil, List.sum_nil]
      exact pow_pos (by omega) _
    · obtain ⟨m0, hm0⟩ := List.exists_mem_of_ne_nil _ hfs
      have hrank1 : 1 ≤ rankOf rho n i := by
        have := hmem m0 hm0
        omega
      have hbound : ∀ x ∈ (s.followers.getD i []).map
          (fun p => (n + 1) ^ rankOf rho n p),
          x ≤ (n + 1) ^ (rankOf rho n i - 1) := by
        intro x hx
        obtain ⟨m, hm, rfl⟩ := List.mem_map.mp hx
        exact Nat.pow_le_pow_right (by omega) (by have := hmem m hm; omega)
      have hlen : (s.followers.getD i []).length ≤ n := by
        rw [hfol i]
        calc (List.filter _ (List.range n)).length
            ≤ (List.range n).length := List.length_filter_le _ _
          _ = n := List.length_range n
      have hsum : stackMeasure rho n (s.followers.getD i []) ≤
          (s.followers.getD i []).length * (n + 1) ^ (rankOf rho n i - 1) := by
        unfold stackMeasure
        have h := List.sum_le_card_nsmul
          ((s.followers.getD i []).map (fun p => (n + 1) ^ rankOf rho n p))
          ((n + 1) ^ (rankOf rho n i - 1)) hbound
        simpa [List.length_map, smul_eq_mul] using h
      calc stackMeasure rho n (s.followers.getD i [])
          ≤ (s.followers.getD i []).length * (n + 1) ^ (rankOf rho n i - 1) := hsum
        _ ≤ n * (n + 1) ^ (rankOf rho n i - 1) := Nat.mul_le_mul_right _ hlen
        _ < (n + 1) * (n + 1) ^ (rankOf rho n i - 1) := by
            exact (Nat.mul_lt_mul_right (pow_pos (by omega) _)).mpr (by omega)
        _ = (n + 1) ^ (rankOf rho n i - 1 + 1) := (pow_succ' _ _).symm
        _ = (n + 1) ^ rankOf rho n i := by
            congr 1
            omega
  omega

/-- Helper: any fuel at least the stack measure empties the stack. -/
theorem expandClusters_empties (n : ℕ) (rho : List F) (nh : List ℤ)
    (cond : ℕ → Bool) :
    ∀ (k : ℕ) (s : AssignState),
      (∀ t : ℕ, s.followers.getD t [] =
        (List.range n).filter (fun m => cond m && (nh.getD m (-1) == (t : ℤ)))) →
      (∀ m, m < n → ∀ t : ℕ, nh.getD m (-1) = (t : ℤ) → lexLt rho m t) →
      (∀ x ∈ s.localStack, x < n) →
      stackMeasure rho n s.localStack ≤ k →
      (expandClusters k s).localStack = [] := by
  intro k
  induction k with
  | zero =>
    intro s hfol hlex hstack hM
    rcases hst : s.localStack with _ | ⟨i, rest⟩
    · exact hst
    · exfalso
      rw [hst, stackMeasure_cons] at hM
      have := pow_pos (show 0 < n + 1 by omega) (rankOf rho n i)
      omega
  | succ k ih =>
    intro s hfol hlex hstack hM
    rcases hst : s.localStack with _ | ⟨i, rest⟩
    · show (expandClusters (k + 1) s).localStack = []
      simp [expandClusters, hst]
    · have hlt := expandStep_measure_lt n rho nh cond s i rest hst hfol hlex
      have hrw : expandClusters (k + 1) s = expandClusters k (expandStep s) := by
        simp [expandClusters, hst]
      rw [hrw]
      apply ih (expandStep s)
      · intro t
        rw [(expandStep_frame s).2.1]
        exact hfol t
      · exact hlex
      · intro x hx
        rw [expandStep_stack s i rest hst] at hx
        rcases List.mem_append.mp hx with hx | hx
        · have hx2 := List.mem_reverse.mp hx
          rw [hfol i] at hx2
          exact List.mem_range.mp (List.mem_filter.mp hx2).1
        · exact hstack x (by rw [hst]; exact List.mem_cons_of_mem _ hx)
      · omega

/-- C9: the cluster-propagation work-stack loop terminates whenever the
follower lists are exactly the inverse of a nearest-higher relation (any
per-point restriction `cond` included) all of whose links go to a point of
strictly greater density, or equal density and greater index — so the
follower graph is acyclic and finitely much fuel empties the stack. -/
theorem expandClusters_terminates (n : ℕ) (rho : List F) (nh : List ℤ)
    (cond : ℕ → Bool) (s : AssignState)
    (hfol : ∀ t : ℕ, s.followers.getD t [] =
      (List.range n).filter (fun m => cond m && (nh.getD m (-1) == (t : ℤ))))
    (hlex : ∀ m, m < n → ∀ t : ℕ, nh.getD m (-1) = (t : ℤ) → lexLt rho m t)
    (hstack : ∀ x ∈ s.localStack, x < n) :
    ∃ fuel, (expandClusters fuel s).localStack = [] :=
  ⟨stackMeasure rho n s.localStack,
    expandClusters_empties n rho nh cond _ s hfol hlex hstack (le_refl _)⟩

/-- Witness for C9: a single seed with no followers; the stack empties. -/
theorem expandClusters_terminates_witness :
    ∃ fuel, (expandClusters fuel
      ⟨0, [0], [-1], [false], ([] : List (List ℕ))⟩).localStack = [] := by
  apply expandClusters_terminates 1 [0] [-1] (fun _ => false)
  · intro t
    simp [List.getD]
  · intro m hm t ht
    rcases m with _ | m
    · have h : (-1 : ℤ) = (t : ℤ) := ht
      omega
    · omega
  · intro x hx
    simp at hx
    omega

end PyClue
